import Mathlib

/-!
Verification of the macadam Podman Desktop extension's reconciliation core
(src/extension.ts, src/utils.ts), as a shallow embedding in Lean.

Modelling conventions:
* JavaScript `Map` objects become association lists `List (String × α)` with
  JS `Map` semantics (`set` replaces in place or appends, `delete` removes,
  `keys` in insertion order).
* Thrown JavaScript values become a small `JSValue` universe; `try`/`catch`
  blocks become `Except JSValue _` values threaded explicitly.
* The asynchronous pass `updateMachines` becomes a pure state-transformer on
  a `PassState` record holding the three module-level maps, the provider's
  aggregate status, and an observation log of the side effects the pass
  performs (listener notifications, status commits, connection registration,
  disposal, provider status updates).  The `Promise.all` over connection
  creations is modelled sequentially, which is faithful to the
  single-threaded cooperative scheduling of the host.
-/

/-- Universe of JavaScript values that flow through the error paths of the
extension: strings, numbers, `null`, `undefined`, and plain objects given by
their (insertion-ordered) own fields. -/
inductive JSValue where
  | vstr (s : String)
  | vnum (n : Int)
  | vnull
  | vundefined
  | vobj (fields : List (String × JSValue))
deriving Repr

/-- Lookup in an association list, returning the first binding; models both
`Map.prototype.get` and own-field lookup on a JS object. -/
def mapGet {α : Type} : List (String × α) → String → Option α
  | [], _ => none
  | (k, v) :: t, q => if k = q then some v else mapGet t q

/-- Model of `Map.prototype.set`: replaces the first binding of the key in
place, or appends a new binding at the end. -/
def mapSet {α : Type} : List (String × α) → String → α → List (String × α)
  | [], k, v => [(k, v)]
  | (k', v') :: t, k, v => if k' = k then (k, v) :: t else (k', v') :: mapSet t k v

/-- Model of `Map.prototype.delete` (keys are unique in every map the
extension builds, so removing every binding of the key is equivalent). -/
def mapDelete {α : Type} : List (String × α) → String → List (String × α)
  | [], _ => []
  | (k', v) :: t, k => if k' = k then mapDelete t k else (k', v) :: mapDelete t k

/-- Model of `Map.prototype.has`. -/
def mapHas {α : Type} (m : List (String × α)) (k : String) : Bool :=
  (mapGet m k).isSome

/-- Model of `Array.from(map.keys())`: the keys in insertion order. -/
def mapKeys {α : Type} (m : List (String × α)) : List String :=
  m.map Prod.fst

/-- JavaScript truthiness for the values of `JSValue`. -/
def jsTruthy : JSValue → Bool
  | .vstr s => !(s == "")
  | .vnum n => !(n == 0)
  | .vnull => false
  | .vundefined => false
  | .vobj _ => true

/-- JavaScript `String(v)` / template-literal conversion for `JSValue`. -/
def jsToString : JSValue → String
  | .vstr s => s
  | .vnum n => toString n
  | .vnull => "null"
  | .vundefined => "undefined"
  | .vobj _ => "[object Object]"

/-- JavaScript `typeof v === 'object'` (true for objects and for `null`). -/
def jsIsObject : JSValue → Bool
  | .vobj _ => true
  | .vnull => true
  | _ => false

/-- JavaScript `'key' in v` for an object value; the error-path guards only
evaluate it on truthy objects. -/
def jsHasProp (v : JSValue) (key : String) : Bool :=
  match v with
  | .vobj fields => (mapGet fields key).isSome
  | _ => false

/-- JavaScript property access `v.key`, `undefined` when absent.  (Access on
`null`/`undefined` would throw in JS; no claim exercises that case.) -/
def jsGetProp (v : JSValue) (key : String) : JSValue :=
  match v with
  | .vobj fields => (mapGet fields key).getD .vundefined
  | _ => .vundefined

/-- Translation of `getErrorMessage` (src/utils.ts lines 95-102):
`if (err && typeof err === 'object' && 'message' in err) return String(err.message);
else if (typeof err === 'string') return err; return '';` -/
def getErrorMessage (err : JSValue) : String :=
  if jsTruthy err && jsIsObject err && jsHasProp err ("message") then
    jsToString (jsGetProp err ("message"))
  else
    match err with
    | .vstr s => s
    | _ => ""

/-- Wire shape of one machine as reported by `macadam list`
(type `MachineJSON` in src/extension.ts). -/
structure MachineJSON where
  Image : String
  CPUs : Int
  Memory : String
  DiskSize : String
  Running : Bool
  Starting : Bool
  Port : Int
  RemoteUsername : String
  IdentityPath : String
deriving DecidableEq, Repr

/-- Tracked attributes of a machine (type `MachineInfo` in src/extension.ts). -/
structure MachineInfo where
  image : String
  cpus : Int
  memory : Int
  diskSize : Int
  port : Int
  remoteUsername : String
  identityPath : String
deriving DecidableEq, Repr

/-- Model of the JavaScript `Number(string)` conversion on the integral
strings the external tool emits; a non-numeric string (`NaN` in JavaScript)
is mapped to 0.  No claim depends on this value. -/
def jsNumber (s : String) : Int :=
  (s.toInt?).getD 0

/-- Construction of the `MachineInfo` stored by `updateMachines`
(src/extension.ts lines 276-284). -/
def machineInfoOf (machine : MachineJSON) : MachineInfo :=
  { image := machine.Image
    memory := jsNumber machine.Memory
    cpus := machine.CPUs
    diskSize := jsNumber machine.DiskSize
    port := machine.Port
    remoteUsername := machine.RemoteUsername
    identityPath := machine.IdentityPath }

/-- Result shape of `getJSONMachineList` (type `MachineJSONListOutput`). -/
structure MachineJSONListOutput where
  list : List MachineJSON
  error : String
deriving DecidableEq, Repr

/-- Translation of `getJSONMachineList` (src/extension.ts lines 113-127).
The argument is the outcome of the try block's external work: `.ok` carries
the successfully parsed machine array together with the captured stderr;
`.error` carries the JavaScript value thrown by any step (executable lookup,
process failure, non-zero exit, or `JSON.parse` on malformed output) — in
every thrown case nothing has been pushed onto `list`. -/
def getJSONMachineList (run : Except JSValue (List MachineJSON × String)) :
    MachineJSONListOutput :=
  match run with
  | .ok (parsed, stderr) => { list := parsed, error := stderr }
  | .error err => { list := [], error := getErrorMessage err }

/-- Union of the per-connection and provider status strings used by the
extension (`ProviderConnectionStatus` and `ProviderStatus` literals). -/
inductive Status where
  | unknown
  | installed
  | configuring
  | configured
  | starting
  | started
  | ready
  | stopped
deriving DecidableEq, Repr

/-- Per-machine status derivation (src/extension.ts lines 257-265):
`let status = running ? 'started' : 'stopped'; if (starting) status = 'starting';` -/
def deriveStatus (running starting : Bool) : Status :=
  let status := if running then Status.started else Status.stopped
  if starting then Status.starting else status

/-- Observable side effects of a reconciliation pass, in program order. -/
inductive Event where
  | notify (listener : String) (name : String) (status : Status)
  | commitStatus (name : String) (status : Status)
  | registerConnection (name : String)
  | updateProviderStatus (status : Status)
  | disposeConnection (name : String)
  | updateConfiguration (name : String) (key : String) (value : Int)
deriving DecidableEq, Repr

/-- Number of disposals of the connection of `k` recorded in an event log. -/
def countDispose : List Event → String → Nat
  | [], _ => 0
  | Event.disposeConnection k' :: es, k =>
      (if k' = k then 1 else 0) + countDispose es k
  | _ :: es, k => countDispose es k

/-- Module-level mutable state of src/extension.ts together with the
aggregate provider status and the observation log. -/
structure PassState where
  macadamMachinesInfo : List (String × MachineInfo)
  macadamMachinesStatuses : List (String × Status)
  currentConnections : List (String × Unit)
  providerStatus : Status
  events : List Event
deriving Repr

/-- Model of `provider.updateStatus(status)`. -/
def updateStatus (s : PassState) (status : Status) : PassState :=
  { s with providerStatus := status
           events := s.events ++ [Event.updateProviderStatus status] }

/-- Connection status accessor built by `registerProviderFor`
(src/extension.ts line 214):
`status: () => macadamMachinesStatuses.get(machineInfo.image) ?? 'unknown'`. -/
def connectionStatusAccessor (statuses : List (String × Status)) (image : String) :
    Status :=
  (mapGet statuses image).getD Status.unknown

/-- Translation of the registry-relevant effects of `registerProviderFor`
(src/extension.ts lines 185-239): register the connection descriptor, call
`provider.updateStatus('ready')`, apply the three configuration values, and
store the disposable in `currentConnections` under `machineInfo.image`.
The per-machine statuses map is not touched by the source function. -/
def registerProviderFor (s : PassState) (machineInfo : MachineInfo) : PassState :=
  let s1 := { s with events := s.events ++ [Event.registerConnection machineInfo.image] }
  let s2 := updateStatus s1 Status.ready
  let s3 := { s2 with events := s2.events
      ++ [Event.updateConfiguration machineInfo.image ("machine.cpus") machineInfo.cpus,
          Event.updateConfiguration machineInfo.image ("machine.memory") machineInfo.memory,
          Event.updateConfiguration machineInfo.image ("machine.diskSize") machineInfo.diskSize] }
  { s3 with currentConnections := mapSet s3.currentConnections machineInfo.image () }

/-- Translation of the per-record body of the first loop of `updateMachines`
(src/extension.ts lines 257-289): derive the status, notify listeners and
commit when it differs from the stored one, store the `MachineInfo`, and
re-commit the status if (dead in practice) it is still absent. -/
def processMachine (listeners : List String) (s : PassState) (machine : MachineJSON) :
    PassState :=
  let status := deriveStatus machine.Running machine.Starting
  let previousStatus := mapGet s.macadamMachinesStatuses machine.Image
  let s1 :=
    if previousStatus ≠ some status then
      { s with
        events := s.events
          ++ listeners.map (fun l => Event.notify l machine.Image status)
          ++ [Event.commitStatus machine.Image status]
        macadamMachinesStatuses := mapSet s.macadamMachinesStatuses machine.Image status }
    else s
  let s2 := { s1 with
    macadamMachinesInfo := mapSet s1.macadamMachinesInfo machine.Image (machineInfoOf machine) }
  if mapHas s2.macadamMachinesStatuses machine.Image then s2
  else
    { s2 with
      macadamMachinesStatuses := mapSet s2.macadamMachinesStatuses machine.Image status
      events := s2.events ++ [Event.commitStatus machine.Image status] }

/-- One step of the `connectionsToCreate` loop (src/extension.ts lines
303-316): look the machine up in `macadamMachinesInfo` and register a
provider connection when found. -/
def createStep (s : PassState) (machineName : String) : PassState :=
  match mapGet s.macadamMachinesInfo machineName with
  | some podmanMachineInfo => registerProviderFor s podmanMachineInfo
  | none => s

/-- One step of the `machinesToRemove` disposal loop (src/extension.ts lines
319-325): dispose and drop the connection when one is registered. -/
def disposeStep (s : PassState) (machine : String) : PassState :=
  match mapGet s.currentConnections machine with
  | some _ =>
      { s with
        events := s.events ++ [Event.disposeConnection machine]
        currentConnections := mapDelete s.currentConnections machine }
  | none => s

/-- Translation of the aggregate-provider-status block of `updateMachines`
(src/extension.ts lines 327-361), guarded by `!extensionApi.env.isLinux`. -/
def applyAggregate (isLinux : Bool) (machines : List MachineJSON) (s : PassState) :
    PassState :=
  if isLinux then s
  else if machines.length = 0 then
    if s.providerStatus ≠ Status.configuring then updateStatus s Status.installed else s
  else
    let atLeastOneMachineRunning := machines.any (fun machine => machine.Running && !machine.Starting)
    let atLeastOneMachineStarting := machines.any (fun machine => machine.Starting)
    if atLeastOneMachineRunning then updateStatus s Status.ready
    else if atLeastOneMachineStarting then updateStatus s Status.starting
    else updateStatus s Status.configured

/-- List `machinesToRemove` of `updateMachines` (src/extension.ts lines
292-294): keys of the statuses map with no matching record in the snapshot. -/
def passRemoveList (machines : List MachineJSON) (statuses : List (String × Status)) :
    List String :=
  (mapKeys statuses).filter (fun machine => !(machines.any (fun m => m.Image == machine)))

/-- List `connectionsToCreate` of `updateMachines` (src/extension.ts lines
300-302): keys of the statuses map with no registered connection. -/
def passCreateList (s : PassState) : List String :=
  (mapKeys s.macadamMachinesStatuses).filter
    (fun machineStatusKey => !(mapHas s.currentConnections machineStatusKey))

/-- Deletion of the removed machines from the statuses map (src/extension.ts
lines 295-297); the source deletes them from `macadamMachinesStatuses` only. -/
def removeStatuses (machinesToRemove : List String) (s : PassState) : PassState :=
  { s with
    macadamMachinesStatuses := machinesToRemove.foldl mapDelete s.macadamMachinesStatuses }

/-- Translation of one reconciliation pass, `updateMachines`
(src/extension.ts lines 241-362).  `run` is the external outcome consumed by
`getJSONMachineList`; the `if (machineListOutput.error)` branch of the source
is empty (`// TODO handle the error`) and therefore absent here. -/
def updateMachines (listeners : List String) (isLinux : Bool) (s : PassState)
    (run : Except JSValue (List MachineJSON × String)) : PassState :=
  let machineListOutput := getJSONMachineList run
  let machines := machineListOutput.list
  let s1 := machines.foldl (processMachine listeners) s
  let machinesToRemove := passRemoveList machines s1.macadamMachinesStatuses
  let s2 := removeStatuses machinesToRemove s1
  let connectionsToCreate := passCreateList s2
  let s3 := connectionsToCreate.foldl createStep s2
  let s4 := machinesToRemove.foldl disposeStep s3
  applyAggregate isLinux machines s4

/-- Translation of `startMachine` (src/extension.ts lines 129-156): on
success the provider status is set to `started`; a thrown runner error is
rethrown unchanged (`throw err`). -/
def startMachine (run : Except JSValue (String × String)) : Except JSValue Status :=
  match run with
  | .ok _ => .ok Status.started
  | .error err => .error err

/-- Translation of `stopMachine` (src/extension.ts lines 158-183): on
success the provider status is set to `stopped`; a thrown runner error is
rethrown unchanged. -/
def stopMachine (run : Except JSValue (String × String)) : Except JSValue Status :=
  match run with
  | .ok _ => .ok Status.stopped
  | .error err => .error err

/-- JS property access `params['key']` on the creation parameter record. -/
def paramsGet (params : List (String × JSValue)) (key : String) : JSValue :=
  (mapGet params key).getD .vundefined

/-- Splitting of a character list at every slash, the separator convention
of `path.dirname`. -/
def splitOnSlash : List Char → List (List Char)
  | [] => [[]]
  | c :: cs =>
      let rest := splitOnSlash cs
      if c = '/' then [] :: rest
      else
        match rest with
        | [] => [[c]]
        | h :: t => (c :: h) :: t

/-- Joining of path components with slashes. -/
def joinSlash : List String → String
  | [] => ""
  | [x] => x
  | x :: xs => x ++ "/" ++ joinSlash xs

/-- Model of Node's `path.dirname` on the plain relative/absolute paths the
extension passes to it. -/
def pathDirname (p : String) : String :=
  let parts := (splitOnSlash p.toList).map (fun cs => String.mk cs)
  if parts.length ≤ 1 then "."
  else
    let dir := joinSlash parts.dropLast
    if dir = "" then "/" else dir

/-- Model of Node's `path.join` on the two-component joins the extension
performs. -/
def pathJoin (a b : String) : String :=
  if a = "" ∨ a = "." then b else a ++ "/" ++ b

/-- The TypeError Node's `path.dirname` throws when its argument is not a
string (ERR_INVALID_ARG_TYPE), as a JS error object. -/
def dirnameTypeError (v : JSValue) : JSValue :=
  .vobj [("name", .vstr "TypeError"),
         ("message",
          .vstr ("The path argument must be of type string. Received " ++ jsToString v))]

/-- Translation of the argument-list construction of `createVM`
(src/extension.ts lines 429-476).  The cpu/memory/disk-size flag blocks are
commented out in the source ("To be uncommented when init command will
support these flags") and therefore contribute nothing here; only the
image-path positional argument is conditional.  The unconditional
`path.join(path.dirname(imagePath), 'id_ed25519')` at line 474 throws a
TypeError when `imagePath` is not a string — in particular when the
image-path key is absent (`undefined`) — so the construction is fallible:
`.ok` carries the completed argument list, `.error` the thrown TypeError. -/
def createVMParameters (params : List (String × JSValue)) :
    Except JSValue (List String) :=
  let parameters : List String := ["init"]
  let imagePath := paramsGet params ("macadam.factory.machine.image-path")
  let parameters :=
    if jsTruthy imagePath then parameters ++ [jsToString imagePath] else parameters
  match imagePath with
  | .vstr p =>
      .ok (parameters ++ ["--ssh-identity-path",
        pathJoin (pathDirname p) ("id_ed25519"), "--username", "core"])
  | _ => .error (dirnameTypeError imagePath)

/-- Modelled from the commented-out memory block of `createVM`
(src/extension.ts lines 447-454):
`const memoryAsMiB = +params[...] / (1024 * 1024);
const roundedMemoryMiB = Math.floor((memoryAsMiB + 1) / 2) * 2;`
JavaScript float arithmetic is modelled as exact rational arithmetic. -/
def roundedMemoryMiB (bytes : ℚ) : ℤ :=
  ⌊(bytes / (1024 * 1024) + 1) / 2⌋ * 2

/-- Translation of the exec/normalize tail of `createVM` (src/extension.ts
lines 503-524): on a thrown runner error, concatenate whichever of `name`,
`message`, `stderr` are (truthily) present, each followed by a newline, and
throw that string, or rethrow the original error when the concatenation is
empty (`throw errorMessage || error`). -/
def createVMExec : Except JSValue (String × String) → Except JSValue Unit
  | .ok _ => .ok ()
  | .error error =>
      let errorMessage :=
        if jsTruthy (jsGetProp error ("name")) then jsToString (jsGetProp error ("name")) ++ "\n" else ""
      let errorMessage := errorMessage ++
        (if jsTruthy (jsGetProp error ("message")) then jsToString (jsGetProp error ("message")) ++ "\n" else "")
      let errorMessage := errorMessage ++
        (if jsTruthy (jsGetProp error ("stderr")) then jsToString (jsGetProp error ("stderr")) ++ "\n" else "")
      .error (if errorMessage = "" then error else JSValue.vstr errorMessage)

/-! ### Association-list (JS `Map`) lemmas -/

theorem mapGet_set {α : Type} (m : List (String × α)) (k : String) (v : α) (q : String) :
    mapGet (mapSet m k v) q = if q = k then some v else mapGet m q := by
  induction m with
  | nil =>
      by_cases h : q = k
      · subst h; simp [mapSet, mapGet]
      · have h' : ¬k = q := fun hh => h hh.symm
        simp [mapSet, mapGet, h, h']
  | cons p t ih =>
      obtain ⟨k', v'⟩ := p
      by_cases hk : k' = k
      · subst hk
        by_cases hq : q = k'
        · subst hq; simp [mapSet, mapGet]
        · have hq' : ¬k' = q := fun hh => hq hh.symm
          simp [mapSet, mapGet, hq, hq']
      · by_cases hq : q = k'
        · subst hq
          have hqk : ¬q = k := fun hh => hk hh
          simp [mapSet, mapGet, hk, hqk]
        · have hq' : ¬k' = q := fun hh => hq hh.symm
          simp [mapSet, mapGet, hk, hq, hq', ih]

theorem mapGet_delete {α : Type} (m : List (String × α)) (k q : String) :
    mapGet (mapDelete m k) q = if q = k then none else mapGet m q := by
  induction m with
  | nil => simp [mapDelete, mapGet]
  | cons p t ih =>
      obtain ⟨k', v'⟩ := p
      by_cases hk : k' = k
      · subst hk
        by_cases hq : q = k'
        · subst hq; simp [mapDelete, mapGet, ih]
        · have hq' : ¬k' = q := fun hh => hq hh.symm
          simp [mapDelete, mapGet, hq, hq', ih]
      · by_cases hq : q = k'
        · subst hq
          simp [mapDelete, mapGet, hk]
        · have hq' : ¬k' = q := fun hh => hq hh.symm
          simp [mapDelete, mapGet, hk, hq, hq', ih]

theorem mapHas_true_iff {α : Type} (m : List (String × α)) (k : String) :
    mapHas m k = true ↔ ∃ v, mapGet m k = some v := by
  simp [mapHas, Option.isSome_iff_exists]

theorem mapHas_set {α : Type} (m : List (String × α)) (k : String) (v : α) (q : String) :
    mapHas (mapSet m k v) q = true ↔ (q = k ∨ mapHas m q = true) := by
  by_cases h : q = k <;> simp [mapHas, mapGet_set, h]

theorem mem_keys_iff {α : Type} (m : List (String × α)) (k : String) :
    k ∈ mapKeys m ↔ mapHas m k = true := by
  induction m with
  | nil => simp [mapKeys, mapHas, mapGet]
  | cons p t ih =>
      obtain ⟨k', v'⟩ := p
      by_cases h : k' = k
      · subst h; simp [mapKeys, mapHas, mapGet]
      · have h' : ¬k = k' := fun hh => h hh.symm
        simp [mapKeys, mapHas, mapGet, h, h'] at ih ⊢
        exact ih

theorem mapGet_foldl_delete {α : Type} (ks : List String) (m : List (String × α)) (q : String) :
    mapGet (ks.foldl mapDelete m) q = if q ∈ ks then none else mapGet m q := by
  induction ks generalizing m with
  | nil => simp
  | cons k ks ih =>
      rw [List.foldl_cons, ih, mapGet_delete]
      by_cases h1 : q ∈ ks <;> by_cases h2 : q = k <;> simp [h1, h2]

theorem mapKeys_set_of_has {α : Type} (m : List (String × α)) (k : String) (v : α)
    (h : mapHas m k = true) : mapKeys (mapSet m k v) = mapKeys m := by
  induction m with
  | nil => simp [mapHas, mapGet] at h
  | cons p t ih =>
      obtain ⟨k', v'⟩ := p
      by_cases hk : k' = k
      · subst hk; simp [mapSet, mapKeys]
      · have ht : mapHas t k = true := by
          simpa [mapHas, mapGet, hk] using h
        have hrec := ih ht
        simp only [mapKeys] at hrec
        simp [mapSet, mapKeys, hk, hrec]

theorem mapKeys_set_of_not_has {α : Type} (m : List (String × α)) (k : String) (v : α)
    (h : mapHas m k = false) : mapKeys (mapSet m k v) = mapKeys m ++ [k] := by
  induction m with
  | nil => simp [mapSet, mapKeys]
  | cons p t ih =>
      obtain ⟨k', v'⟩ := p
      by_cases hk : k' = k
      · subst hk; simp [mapHas, mapGet] at h
      · have ht : mapHas t k = false := by
          simpa [mapHas, mapGet, hk] using h
        have hrec := ih ht
        simp only [mapKeys] at hrec
        simp [mapSet, mapKeys, hk, hrec]

theorem nodup_keys_set {α : Type} (m : List (String × α)) (k : String) (v : α)
    (h : (mapKeys m).Nodup) : (mapKeys (mapSet m k v)).Nodup := by
  by_cases hh : mapHas m k
  · rw [mapKeys_set_of_has m k v hh]; exact h
  · rw [mapKeys_set_of_not_has m k v (by simpa using hh)]
    have hk : k ∉ mapKeys m := fun hmem => hh ((mem_keys_iff m k).mp hmem)
    simp [List.nodup_append, h, hk]

/-! ### Event-log counting lemmas -/

theorem countDispose_append (a b : List Event) (k : String) :
    countDispose (a ++ b) k = countDispose a k + countDispose b k := by
  induction a with
  | nil => simp [countDispose]
  | cons e a ih => cases e <;> simp [countDispose, ih] <;> omega

theorem countDispose_notifyMap (ls : List String) (n : String) (st : Status) (k : String) :
    countDispose (ls.map (fun l => Event.notify l n st)) k = 0 := by
  induction ls with
  | nil => simp [countDispose]
  | cons l ls ih => simp [countDispose, ih]

/-! ### Lemmas about the per-record step `processMachine` -/

theorem processMachine_info (ls : List String) (s : PassState) (m : MachineJSON) :
    (processMachine ls s m).macadamMachinesInfo =
      mapSet s.macadamMachinesInfo m.Image (machineInfoOf m) := by
  simp only [processMachine]
  split <;> split <;> rfl

theorem processMachine_connections (ls : List String) (s : PassState) (m : MachineJSON) :
    (processMachine ls s m).currentConnections = s.currentConnections := by
  simp only [processMachine]
  split <;> split <;> rfl

theorem processMachine_providerStatus (ls : List String) (s : PassState) (m : MachineJSON) :
    (processMachine ls s m).providerStatus = s.providerStatus := by
  simp only [processMachine]
  split <;> split <;> rfl

theorem processMachine_statuses_get (ls : List String) (s : PassState) (m : MachineJSON)
    (q : String) :
    mapGet (processMachine ls s m).macadamMachinesStatuses q =
      if q = m.Image then some (deriveStatus m.Running m.Starting)
      else mapGet s.macadamMachinesStatuses q := by
  simp only [processMachine]
  split
  · split
    · simp [mapGet_set]
    · by_cases h : q = m.Image
      · subst h; simp [mapGet_set]
      · simp [mapGet_set, h]
  · rename_i heq
    rw [not_ne_iff] at heq
    split
    · by_cases hq : q = m.Image
      · subst hq; simp [heq]
      · simp [hq]
    · by_cases hq : q = m.Image
      · subst hq; simp [mapGet_set]
      · simp [mapGet_set, hq]

theorem processMachine_countDispose (ls : List String) (s : PassState) (m : MachineJSON)
    (k : String) :
    countDispose (processMachine ls s m).events k = countDispose s.events k := by
  simp only [processMachine]
  split <;> split <;>
    simp [countDispose_append, countDispose_notifyMap, countDispose]

/-! ### Lemmas about the snapshot loop (`machines.foldl processMachine`) -/

theorem foldl_pm_connections (ls : List String) (ms : List MachineJSON) (s : PassState) :
    (ms.foldl (processMachine ls) s).currentConnections = s.currentConnections := by
  induction ms generalizing s with
  | nil => rfl
  | cons m ms ih => rw [List.foldl_cons, ih, processMachine_connections]

theorem foldl_pm_providerStatus (ls : List String) (ms : List MachineJSON) (s : PassState) :
    (ms.foldl (processMachine ls) s).providerStatus = s.providerStatus := by
  induction ms generalizing s with
  | nil => rfl
  | cons m ms ih => rw [List.foldl_cons, ih, processMachine_providerStatus]

theorem foldl_pm_countDispose (ls : List String) (ms : List MachineJSON) (s : PassState)
    (k : String) :
    countDispose (ms.foldl (processMachine ls) s).events k = countDispose s.events k := by
  induction ms generalizing s with
  | nil => rfl
  | cons m ms ih => rw [List.foldl_cons, ih, processMachine_countDispose]

theorem foldl_pm_statuses_get_of_not_mem (ls : List String) (ms : List MachineJSON)
    (s : PassState) (q : String) (h : ∀ m ∈ ms, m.Image ≠ q) :
    mapGet (ms.foldl (processMachine ls) s).macadamMachinesStatuses q =
      mapGet s.macadamMachinesStatuses q := by
  induction ms generalizing s with
  | nil => rfl
  | cons m ms ih =>
      rw [List.foldl_cons, ih _ (fun m' hm' => h m' (List.mem_cons_of_mem m hm')),
        processMachine_statuses_get]
      have : ¬q = m.Image := fun hq => h m (List.mem_cons_self m ms) hq.symm
      simp [this]

theorem foldl_pm_statuses_has (ls : List String) (ms : List MachineJSON) (s : PassState)
    (q : String) :
    mapHas (ms.foldl (processMachine ls) s).macadamMachinesStatuses q = true ↔
      (mapHas s.macadamMachinesStatuses q = true ∨ ∃ m ∈ ms, m.Image = q) := by
  induction ms generalizing s with
  | nil => simp
  | cons m ms ih =>
      rw [List.foldl_cons, ih]
      constructor
      · rintro (h | h)
        · rw [mapHas_true_iff] at h
          obtain ⟨v, hv⟩ := h
          rw [processMachine_statuses_get] at hv
          by_cases hq : q = m.Image
          · exact Or.inr ⟨m, List.mem_cons_self m ms, hq.symm⟩
          · rw [if_neg hq] at hv
            exact Or.inl ((mapHas_true_iff _ _).mpr ⟨v, hv⟩)
        · obtain ⟨m', hm', him⟩ := h
          exact Or.inr ⟨m', List.mem_cons_of_mem m hm', him⟩
      · rintro (h | ⟨m', hm', him⟩)
        · left
          rw [mapHas_true_iff] at h ⊢
          obtain ⟨v, hv⟩ := h
          rw [processMachine_statuses_get]
          by_cases hq : q = m.Image
          · exact ⟨_, by rw [if_pos hq]⟩
          · exact ⟨v, by rw [if_neg hq]; exact hv⟩
        · rcases List.mem_cons.mp hm' with hm | hm
          · left
            rw [mapHas_true_iff]
            rw [processMachine_statuses_get]
            subst hm
            exact ⟨_, by rw [if_pos him.symm]⟩
          · exact Or.inr ⟨m', hm, him⟩

theorem foldl_pm_info_has (ls : List String) (ms : List MachineJSON) (s : PassState)
    (q : String) :
    mapHas (ms.foldl (processMachine ls) s).macadamMachinesInfo q = true ↔
      (mapHas s.macadamMachinesInfo q = true ∨ ∃ m ∈ ms, m.Image = q) := by
  induction ms generalizing s with
  | nil => simp
  | cons m ms ih =>
      rw [List.foldl_cons, ih]
      have hstep : mapHas (processMachine ls s m).macadamMachinesInfo q = true ↔
          (q = m.Image ∨ mapHas s.macadamMachinesInfo q = true) := by
        rw [processMachine_info]; exact mapHas_set _ _ _ _
      rw [hstep]
      constructor
      · rintro ((h | h) | ⟨m', hm', him⟩)
        · exact Or.inr ⟨m, List.mem_cons_self m ms, h.symm⟩
        · exact Or.inl h
        · exact Or.inr ⟨m', List.mem_cons_of_mem m hm', him⟩
      · rintro (h | ⟨m', hm', him⟩)
        · exact Or.inl (Or.inr h)
        · rcases List.mem_cons.mp hm' with hm | hm
          · exact Or.inl (Or.inl (hm ▸ him.symm))
          · exact Or.inr ⟨m', hm, him⟩

/-- Key-correctness of the info map: every stored `MachineInfo` is keyed by
its own `image` field.  `updateMachines` establishes and preserves this. -/
def wfInfo (info : List (String × MachineInfo)) : Prop :=
  ∀ q mi, mapGet info q = some mi → mi.image = q

theorem wfInfo_set (info : List (String × MachineInfo)) (k : String) (mi : MachineInfo)
    (h : wfInfo info) (hm : mi.image = k) : wfInfo (mapSet info k mi) := by
  intro q mi' hq
  rw [mapGet_set] at hq
  by_cases hqk : q = k
  · rw [if_pos hqk] at hq
    cases hq
    exact hm.trans hqk.symm
  · rw [if_neg hqk] at hq
    exact h q mi' hq

theorem foldl_pm_wfInfo (ls : List String) (ms : List MachineJSON) (s : PassState)
    (h : wfInfo s.macadamMachinesInfo) :
    wfInfo (ms.foldl (processMachine ls) s).macadamMachinesInfo := by
  induction ms generalizing s with
  | nil => exact h
  | cons m ms ih =>
      rw [List.foldl_cons]
      exact ih _ (by rw [processMachine_info]; exact wfInfo_set _ _ _ h rfl)

theorem foldl_pm_statuses_nodup (ls : List String) (ms : List MachineJSON) (s : PassState)
    (h : (mapKeys s.macadamMachinesStatuses).Nodup) :
    (mapKeys (ms.foldl (processMachine ls) s).macadamMachinesStatuses).Nodup := by
  induction ms generalizing s with
  | nil => exact h
  | cons m ms ih =>
      rw [List.foldl_cons]
      refine ih _ ?_
      simp only [processMachine]
      split
      · split
        · exact nodup_keys_set _ _ _ h
        · exact nodup_keys_set _ _ _ (nodup_keys_set _ _ _ h)
      · split
        · exact h
        · exact nodup_keys_set _ _ _ h

/-! ### Lemmas about connection creation (`createStep` / `registerProviderFor`) -/

theorem registerProviderFor_statuses (s : PassState) (mi : MachineInfo) :
    (registerProviderFor s mi).macadamMachinesStatuses = s.macadamMachinesStatuses := rfl

theorem registerProviderFor_info (s : PassState) (mi : MachineInfo) :
    (registerProviderFor s mi).macadamMachinesInfo = s.macadamMachinesInfo := rfl

theorem registerProviderFor_providerStatus (s : PassState) (mi : MachineInfo) :
    (registerProviderFor s mi).providerStatus = Status.ready := rfl

theorem registerProviderFor_connections (s : PassState) (mi : MachineInfo) :
    (registerProviderFor s mi).currentConnections =
      mapSet s.currentConnections mi.image () := rfl

theorem registerProviderFor_events (s : PassState) (mi : MachineInfo) :
    (registerProviderFor s mi).events = s.events
      ++ [Event.registerConnection mi.image]
      ++ [Event.updateProviderStatus Status.ready]
      ++ [Event.updateConfiguration mi.image ("machine.cpus") mi.cpus,
          Event.updateConfiguration mi.image ("machine.memory") mi.memory,
          Event.updateConfiguration mi.image ("machine.diskSize") mi.diskSize] := rfl

theorem registerProviderFor_countDispose (s : PassState) (mi : MachineInfo) (k : String) :
    countDispose (registerProviderFor s mi).events k = countDispose s.events k := by
  rw [registerProviderFor_events]
  simp [countDispose_append, countDispose]

theorem createStep_statuses (s : PassState) (n : String) :
    (createStep s n).macadamMachinesStatuses = s.macadamMachinesStatuses := by
  unfold createStep
  cases mapGet s.macadamMachinesInfo n <;> rfl

theorem createStep_info (s : PassState) (n : String) :
    (createStep s n).macadamMachinesInfo = s.macadamMachinesInfo := by
  unfold createStep
  cases mapGet s.macadamMachinesInfo n <;> rfl

theorem createStep_countDispose (s : PassState) (n : String) (k : String) :
    countDispose (createStep s n).events k = countDispose s.events k := by
  unfold createStep
  cases mapGet s.macadamMachinesInfo n
  · rfl
  · exact registerProviderFor_countDispose _ _ _

theorem createStep_providerStatus (s : PassState) (n : String) :
    (createStep s n).providerStatus = s.providerStatus ∨
      (createStep s n).providerStatus = Status.ready := by
  unfold createStep
  cases mapGet s.macadamMachinesInfo n
  · exact Or.inl rfl
  · exact Or.inr rfl

theorem createStep_connections_get (s : PassState) (n : String) (q : String)
    (h : ∀ mi, mapGet s.macadamMachinesInfo n = some mi → mi.image ≠ q) :
    mapGet (createStep s n).currentConnections q = mapGet s.currentConnections q := by
  unfold createStep
  cases hn : mapGet s.macadamMachinesInfo n with
  | none => rfl
  | some mi =>
      rw [registerProviderFor_connections, mapGet_set,
        if_neg (fun hq => h mi hn hq.symm)]

theorem foldl_cs_statuses (names : List String) (s : PassState) :
    (names.foldl createStep s).macadamMachinesStatuses = s.macadamMachinesStatuses := by
  induction names generalizing s with
  | nil => rfl
  | cons n names ih => rw [List.foldl_cons, ih, createStep_statuses]

theorem foldl_cs_info (names : List String) (s : PassState) :
    (names.foldl createStep s).macadamMachinesInfo = s.macadamMachinesInfo := by
  induction names generalizing s with
  | nil => rfl
  | cons n names ih => rw [List.foldl_cons, ih, createStep_info]

theorem foldl_cs_countDispose (names : List String) (s : PassState) (k : String) :
    countDispose (names.foldl createStep s).events k = countDispose s.events k := by
  induction names generalizing s with
  | nil => rfl
  | cons n names ih => rw [List.foldl_cons, ih, createStep_countDispose]

theorem foldl_cs_providerStatus (names : List String) (s : PassState) :
    (names.foldl createStep s).providerStatus = s.providerStatus ∨
      (names.foldl createStep s).providerStatus = Status.ready := by
  induction names generalizing s with
  | nil => exact Or.inl rfl
  | cons n names ih =>
      rw [List.foldl_cons]
      rcases ih (createStep s n) with h | h
      · rw [h]; exact createStep_providerStatus s n
      · exact Or.inr h

theorem foldl_cs_connections_get (names : List String) (s : PassState) (q : String)
    (h : ∀ n ∈ names, ∀ mi, mapGet s.macadamMachinesInfo n = some mi → mi.image ≠ q) :
    mapGet (names.foldl createStep s).currentConnections q =
      mapGet s.currentConnections q := by
  induction names generalizing s with
  | nil => rfl
  | cons n names ih =>
      rw [List.foldl_cons]
      rw [ih _ (fun n' hn' mi hmi => h n' (List.mem_cons_of_mem n hn') mi
        (by rw [createStep_info] at hmi; exact hmi))]
      exact createStep_connections_get s n q (h n (List.mem_cons_self n names))

theorem foldl_cs_connections_has (names : List String) (s : PassState) (q : String)
    (hq : mapHas (names.foldl createStep s).currentConnections q = true) :
    mapHas s.currentConnections q = true ∨
      ∃ n ∈ names, ∃ mi, mapGet s.macadamMachinesInfo n = some mi ∧ mi.image = q := by
  induction names generalizing s with
  | nil => exact Or.inl hq
  | cons n names ih =>
      rw [List.foldl_cons] at hq
      rcases ih _ hq with h | ⟨n', hn', mi, hmi, him⟩
      · unfold createStep at h
        cases hn : mapGet s.macadamMachinesInfo n with
        | none => rw [hn] at h; exact Or.inl h
        | some mi =>
            rw [hn] at h
            rw [registerProviderFor_connections] at h
            rcases (mapHas_set _ _ _ _).mp h with h | h
            · exact Or.inr ⟨n, List.mem_cons_self n names, mi, hn, h.symm⟩
            · exact Or.inl h
      · rw [createStep_info] at hmi
        exact Or.inr ⟨n', List.mem_cons_of_mem n hn', mi, hmi, him⟩

/-! ### Lemmas about connection disposal (`disposeStep`) -/

theorem disposeStep_statuses (s : PassState) (k : String) :
    (disposeStep s k).macadamMachinesStatuses = s.macadamMachinesStatuses := by
  unfold disposeStep
  cases mapGet s.currentConnections k <;> rfl

theorem disposeStep_info (s : PassState) (k : String) :
    (disposeStep s k).macadamMachinesInfo = s.macadamMachinesInfo := by
  unfold disposeStep
  cases mapGet s.currentConnections k <;> rfl

theorem disposeStep_providerStatus (s : PassState) (k : String) :
    (disposeStep s k).providerStatus = s.providerStatus := by
  unfold disposeStep
  cases mapGet s.currentConnections k <;> rfl

theorem disposeStep_connections_get (s : PassState) (k q : String) :
    mapGet (disposeStep s k).currentConnections q =
      if q = k then none else mapGet s.currentConnections q := by
  unfold disposeStep
  cases hk : mapGet s.currentConnections k with
  | none =>
      by_cases hq : q = k
      · subst hq; simp [hk]
      · simp [hq]
  | some u => simp [mapGet_delete]

theorem disposeStep_countDispose (s : PassState) (k q : String) :
    countDispose (disposeStep s k).events q =
      countDispose s.events q +
        (if q = k ∧ mapHas s.currentConnections k = true then 1 else 0) := by
  unfold disposeStep
  cases hk : mapGet s.currentConnections k with
  | none => simp [mapHas, hk]
  | some u =>
      have : mapHas s.currentConnections k = true := by simp [mapHas, hk]
      by_cases hq : q = k
      · subst hq; simp [this, countDispose_append, countDispose]
      · have hne : ¬k = q := fun hh => hq hh.symm
        simp [hq, hne, countDispose_append, countDispose]

theorem foldl_ds_statuses (ks : List String) (s : PassState) :
    (ks.foldl disposeStep s).macadamMachinesStatuses = s.macadamMachinesStatuses := by
  induction ks generalizing s with
  | nil => rfl
  | cons k ks ih => rw [List.foldl_cons, ih, disposeStep_statuses]

theorem foldl_ds_info (ks : List String) (s : PassState) :
    (ks.foldl disposeStep s).macadamMachinesInfo = s.macadamMachinesInfo := by
  induction ks generalizing s with
  | nil => rfl
  | cons k ks ih => rw [List.foldl_cons, ih, disposeStep_info]

theorem foldl_ds_providerStatus (ks : List String) (s : PassState) :
    (ks.foldl disposeStep s).providerStatus = s.providerStatus := by
  induction ks generalizing s with
  | nil => rfl
  | cons k ks ih => rw [List.foldl_cons, ih, disposeStep_providerStatus]

theorem foldl_ds_connections_get (ks : List String) (s : PassState) (q : String) :
    mapGet (ks.foldl disposeStep s).currentConnections q =
      if q ∈ ks then none else mapGet s.currentConnections q := by
  induction ks generalizing s with
  | nil => simp
  | cons k ks ih =>
      rw [List.foldl_cons, ih, disposeStep_connections_get]
      by_cases h1 : q ∈ ks <;> by_cases h2 : q = k <;> simp [h1, h2]

theorem foldl_ds_countDispose_not_mem (ks : List String) (s : PassState) (q : String)
    (h : q ∉ ks) :
    countDispose (ks.foldl disposeStep s).events q = countDispose s.events q := by
  induction ks generalizing s with
  | nil => rfl
  | cons k ks ih =>
      rw [List.foldl_cons, ih _ (fun hm => h (List.mem_cons_of_mem k hm)),
        disposeStep_countDispose]
      have : ¬q = k := fun hq => h (hq ▸ List.mem_cons_self k ks)
      simp [this]

theorem foldl_ds_countDispose_mem (ks : List String) (s : PassState) (q : String)
    (hnd : ks.Nodup) (hq : q ∈ ks) :
    countDispose (ks.foldl disposeStep s).events q =
      countDispose s.events q +
        (if mapHas s.currentConnections q = true then 1 else 0) := by
  induction ks generalizing s with
  | nil => cases hq
  | cons k ks ih =>
      rw [List.foldl_cons]
      rcases List.mem_cons.mp hq with hqk | hqm
      · subst hqk
        have hnot : q ∉ ks := (List.nodup_cons.mp hnd).1
        rw [foldl_ds_countDispose_not_mem ks _ q hnot, disposeStep_countDispose]
        simp
      · have hne : ¬q = k := fun hh => (List.nodup_cons.mp hnd).1 (hh ▸ hqm)
        have hconn : mapHas (disposeStep s k).currentConnections q =
            mapHas s.currentConnections q := by
          simp [mapHas, disposeStep_connections_get, hne]
        rw [ih _ (List.nodup_cons.mp hnd).2 hqm, disposeStep_countDispose, hconn]
        simp [hne]

/-! ### Lemmas about the aggregate-status block -/

theorem applyAggregate_statuses (isLinux : Bool) (ms : List MachineJSON) (s : PassState) :
    (applyAggregate isLinux ms s).macadamMachinesStatuses = s.macadamMachinesStatuses := by
  unfold applyAggregate updateStatus
  split
  · rfl
  · split
    · split <;> rfl
    · dsimp only
      split
      · rfl
      · split <;> rfl

theorem applyAggregate_info (isLinux : Bool) (ms : List MachineJSON) (s : PassState) :
    (applyAggregate isLinux ms s).macadamMachinesInfo = s.macadamMachinesInfo := by
  unfold applyAggregate updateStatus
  split
  · rfl
  · split
    · split <;> rfl
    · dsimp only
      split
      · rfl
      · split <;> rfl

theorem applyAggregate_connections (isLinux : Bool) (ms : List MachineJSON) (s : PassState) :
    (applyAggregate isLinux ms s).currentConnections = s.currentConnections := by
  unfold applyAggregate updateStatus
  split
  · rfl
  · split
    · split <;> rfl
    · dsimp only
      split
      · rfl
      · split <;> rfl

theorem applyAggregate_countDispose (isLinux : Bool) (ms : List MachineJSON) (s : PassState)
    (k : String) :
    countDispose (applyAggregate isLinux ms s).events k = countDispose s.events k := by
  unfold applyAggregate updateStatus
  split
  · rfl
  · split
    · split <;> simp [countDispose_append, countDispose]
    · dsimp only
      split
      · simp [countDispose_append, countDispose]
      · split <;> simp [countDispose_append, countDispose]

/-! ### Emptying the statuses map when the snapshot is empty -/

theorem mem_mapDelete {α : Type} (m : List (String × α)) (k : String) (p : String × α) :
    p ∈ mapDelete m k ↔ p ∈ m ∧ p.1 ≠ k := by
  induction m with
  | nil => simp [mapDelete]
  | cons hd t ih =>
      obtain ⟨k', v'⟩ := hd
      by_cases hk : k' = k
      · subst hk
        rw [show mapDelete ((k', v') :: t) k' = mapDelete t k' from by simp [mapDelete]]
        rw [ih]
        simp only [List.mem_cons]
        constructor
        · rintro ⟨hp, hne⟩
          exact ⟨Or.inr hp, hne⟩
        · rintro ⟨hp | hp, hne⟩
          · exact absurd (congrArg Prod.fst hp) hne
          · exact ⟨hp, hne⟩
      · rw [show mapDelete ((k', v') :: t) k = (k', v') :: mapDelete t k from by
          simp [mapDelete, hk]]
        simp only [List.mem_cons, ih]
        constructor
        · rintro (hp | hp)
          · subst hp
            exact ⟨Or.inl rfl, hk⟩
          · exact ⟨Or.inr hp.1, hp.2⟩
        · rintro ⟨hp | hp, hne⟩
          · exact Or.inl hp
          · exact Or.inr ⟨hp, hne⟩

theorem foldl_mapDelete_all {α : Type} (ks : List String) (m : List (String × α))
    (h : ∀ p ∈ m, p.1 ∈ ks) : ks.foldl mapDelete m = [] := by
  induction ks generalizing m with
  | nil =>
      cases m with
      | nil => rfl
      | cons p t => exact absurd (h p (List.mem_cons_self p t)) (List.not_mem_nil _)
  | cons k ks ih =>
      rw [List.foldl_cons]
      refine ih _ (fun p hp => ?_)
      rw [mem_mapDelete] at hp
      rcases List.mem_cons.mp (h p hp.1) with hk | hk
      · exact absurd hk hp.2
      · exact hk

/-! ### Decomposition of the pass and concrete fixtures -/

theorem updateMachines_decomp (ls : List String) (isLinux : Bool) (s : PassState)
    (run : Except JSValue (List MachineJSON × String)) :
    updateMachines ls isLinux s run =
      applyAggregate isLinux (getJSONMachineList run).list
        ((passRemoveList (getJSONMachineList run).list
            ((getJSONMachineList run).list.foldl (processMachine ls) s).macadamMachinesStatuses).foldl
          disposeStep
          ((passCreateList
              (removeStatuses
                (passRemoveList (getJSONMachineList run).list
                  ((getJSONMachineList run).list.foldl (processMachine ls)
                      s).macadamMachinesStatuses)
                ((getJSONMachineList run).list.foldl (processMachine ls) s))).foldl
            createStep
            (removeStatuses
              (passRemoveList (getJSONMachineList run).list
                ((getJSONMachineList run).list.foldl (processMachine ls)
                    s).macadamMachinesStatuses)
              ((getJSONMachineList run).list.foldl (processMachine ls) s)))) := rfl

theorem applyAggregate_ps_nonLinux (ms : List MachineJSON) (s : PassState) :
    (applyAggregate false ms s).providerStatus =
      if ms.length = 0 then
        (if s.providerStatus ≠ Status.configuring then Status.installed
         else s.providerStatus)
      else if ms.any (fun m => m.Running && !m.Starting) then Status.ready
      else if ms.any (fun m => m.Starting) then Status.starting
      else Status.configured := by
  unfold applyAggregate updateStatus
  rw [if_neg (by simp)]
  split
  · split
    · rfl
    · rfl
  · dsimp only
    split
    · rfl
    · split
      · rfl
      · rfl

theorem applyAggregate_linux (ms : List MachineJSON) (s : PassState) :
    applyAggregate true ms s = s := by
  unfold applyAggregate
  rw [if_pos rfl]

/-- A running, non-starting machine record named a, used as a concrete input. -/
def mRunning : MachineJSON :=
  { Image := "a", CPUs := 2, Memory := "2048", DiskSize := "20", Running := true,
    Starting := false, Port := 22, RemoteUsername := "core", IdentityPath := "/id" }

/-- The state of the registry at extension startup: everything empty. -/
def emptyState : PassState :=
  { macadamMachinesInfo := [], macadamMachinesStatuses := [], currentConnections := [],
    providerStatus := Status.unknown, events := [] }

/-- State after a first pass observing machine a (on the Linux platform, one
listener registered). -/
def passOne : PassState := updateMachines ["h1"] true emptyState (.ok ([mRunning], ""))

/-- State after a second pass in which machine a has disappeared from the
snapshot. -/
def passTwo : PassState := updateMachines ["h1"] true passOne (.ok ([], ""))

/-! ### Claim C10 -/

/-- Claim C10: for every boolean pair (running, starting), the Status Deriver
is a total function returning starting when starting is true (regardless of
running), started when starting is false and running is true, and stopped
when both are false.  (`deriveStatus` is a total Lean function over `Bool ×
Bool` by construction.) -/
theorem c10_deriveStatus : ∀ running starting : Bool,
    (starting = true → deriveStatus running starting = Status.starting) ∧
    (starting = false → running = true → deriveStatus running starting = Status.started) ∧
    (starting = false → running = false → deriveStatus running starting = Status.stopped) := by
  decide

/-- Witness for C10 at the three concrete boolean pairs. -/
theorem c10_witness :
    deriveStatus true true = Status.starting ∧
    deriveStatus true false = Status.started ∧
    deriveStatus false false = Status.stopped :=
  ⟨(c10_deriveStatus true true).1 rfl,
   (c10_deriveStatus true false).2.1 rfl rfl,
   (c10_deriveStatus false false).2.2 rfl rfl⟩

/-! ### Claim C9 -/

/-- The machine attributes of the record named img, with a stopped status
stored in the registry. -/
def miStopped : MachineInfo :=
  { image := "img", cpus := 2, memory := 2048, diskSize := 20, port := 22,
    remoteUsername := "core", identityPath := "/id" }

/-- A state tracking machine img with per-machine status stopped and no
registered connection. -/
def stateStopped : PassState :=
  { macadamMachinesInfo := [("img", miStopped)],
    macadamMachinesStatuses := [("img", Status.stopped)],
    currentConnections := [], providerStatus := Status.unknown, events := [] }

/-- Claim C9 counterexample: after a successful registration for img the
per-machine status entry (the value the connection's status accessor
returns) is still stopped, not ready; what registration sets to ready is the
aggregate provider status. -/
theorem c9_counterexample :
    connectionStatusAccessor
        (registerProviderFor stateStopped miStopped).macadamMachinesStatuses ("img") =
      Status.stopped ∧
    Status.stopped ≠ Status.ready ∧
    (registerProviderFor stateStopped miStopped).providerStatus = Status.ready := by
  refine ⟨rfl, by decide, rfl⟩

/-- Claim C9 (amended): when a machine's connection registration succeeds,
the AGGREGATE provider status is set to ready (registration success is a
status signal for the provider), while the per-machine statuses map — and
hence the value returned by the connection's status accessor — is left
unchanged, independent of the status derived earlier in the pass; the
disposable handle is stored under the record's identity. -/
theorem c9_amended (s : PassState) (mi : MachineInfo) :
    (registerProviderFor s mi).providerStatus = Status.ready ∧
    (registerProviderFor s mi).macadamMachinesStatuses = s.macadamMachinesStatuses ∧
    connectionStatusAccessor (registerProviderFor s mi).macadamMachinesStatuses mi.image =
      connectionStatusAccessor s.macadamMachinesStatuses mi.image ∧
    mapGet (registerProviderFor s mi).currentConnections mi.image = some () ∧
    (registerProviderFor s mi).events = s.events
      ++ [Event.registerConnection mi.image, Event.updateProviderStatus Status.ready,
          Event.updateConfiguration mi.image ("machine.cpus") mi.cpus,
          Event.updateConfiguration mi.image ("machine.memory") mi.memory,
          Event.updateConfiguration mi.image ("machine.diskSize") mi.diskSize] := by
  refine ⟨rfl, rfl, rfl, ?_, ?_⟩
  · rw [registerProviderFor_connections, mapGet_set, if_pos rfl]
  · rw [registerProviderFor_events]
    simp

/-! ### Claim C5 -/

/-- A runner failure object carrying name, message and stderr fields. -/
def runErrFull : JSValue :=
  .vobj [("name", .vstr "E1"), ("message", .vstr "boom"), ("stderr", .vstr "oops")]

/-- Claim C5 counterexample: a start failure whose runner error carries
name/message/stderr is rethrown as the original error object (`throw err`),
not as the concatenated string the claim requires. -/
theorem c5_counterexample :
    startMachine (.error runErrFull) = .error runErrFull ∧
    runErrFull ≠ JSValue.vstr ("E1\nboom\noops\n") :=
  ⟨rfl, fun h => JSValue.noConfusion h⟩

/-- One diagnostic field's contribution to the normalized create error
message: the field value followed by a newline when the field is present,
nothing when it is absent. -/
def optPart : Option String → String
  | none => ""
  | some x => x ++ "\n"

/-- A runner error object exposing exactly the present diagnostic fields,
in name/message/stderr order. -/
def mkRunErrorOpt (n m st : Option String) : JSValue :=
  .vobj ((match n with
          | some x => [("name", JSValue.vstr x)]
          | none => [])
    ++ (match m with
        | some x => [("message", JSValue.vstr x)]
        | none => [])
    ++ (match st with
        | some x => [("stderr", JSValue.vstr x)]
        | none => []))

/-- The value of an optional diagnostic field on the error object: the
string when the field is present, `undefined` when it is absent. -/
def optField : Option String → JSValue
  | some x => JSValue.vstr x
  | none => JSValue.vundefined

theorem mkRunErrorOpt_name (n m st : Option String) :
    jsGetProp (mkRunErrorOpt n m st) ("name") = optField n := by
  cases n <;> cases m <;> cases st <;> simp [mkRunErrorOpt, jsGetProp, mapGet, optField]

theorem mkRunErrorOpt_message (n m st : Option String) :
    jsGetProp (mkRunErrorOpt n m st) ("message") = optField m := by
  cases n <;> cases m <;> cases st <;> simp [mkRunErrorOpt, jsGetProp, mapGet, optField]

theorem mkRunErrorOpt_stderr (n m st : Option String) :
    jsGetProp (mkRunErrorOpt n m st) ("stderr") = optField st := by
  cases n <;> cases m <;> cases st <;> simp [mkRunErrorOpt, jsGetProp, mapGet, optField]

theorem optField_part (o : Option String) (h : ∀ x ∈ o, x ≠ "") :
    (if jsTruthy (optField o) = true then jsToString (optField o) ++ "\n" else "") =
      optPart o := by
  cases o with
  | none => simp [optField, jsTruthy, optPart]
  | some x =>
      have hx : x ≠ "" := h x rfl
      simp [optField, jsTruthy, jsToString, optPart, hx]

/-- Claim C5 (amended): error normalization happens only on the create path.
`startMachine` and `stopMachine` rethrow the original failure unchanged for
every failure; `createVM` throws the concatenation of whichever of name,
message, stderr are present — each followed by a newline, in that order, for
every subset of present (non-empty, hence truthy) fields — and rethrows the
original failure unchanged when none are present. -/
theorem c5_amended :
    (∀ e, startMachine (.error e) = .error e) ∧
    (∀ e, stopMachine (.error e) = .error e) ∧
    (∀ n m st : Option String, (∀ x ∈ n, x ≠ "") → (∀ x ∈ m, x ≠ "") →
      (∀ x ∈ st, x ≠ "") → (n ≠ none ∨ m ≠ none ∨ st ≠ none) →
      createVMExec (.error (mkRunErrorOpt n m st)) =
        .error (.vstr (optPart n ++ optPart m ++ optPart st))) ∧
    (∀ e, jsTruthy (jsGetProp e ("name")) = false →
      jsTruthy (jsGetProp e ("message")) = false →
      jsTruthy (jsGetProp e ("stderr")) = false →
      createVMExec (.error e) = .error e) := by
  refine ⟨fun e => rfl, fun e => rfl, ?_, ?_⟩
  · intro n m st hn hm hst hsome
    simp only [createVMExec]
    rw [mkRunErrorOpt_name, mkRunErrorOpt_message, mkRunErrorOpt_stderr,
      optField_part n hn, optField_part m hm, optField_part st hst]
    rw [if_neg ?_]
    intro hempty
    have hlen := congrArg String.length hempty
    have hnl : ("\n" : String).length = 1 := rfl
    have hz : ("" : String).length = 0 := rfl
    rcases hsome with h | h | h <;>
      obtain ⟨x, hx⟩ := Option.ne_none_iff_exists'.mp h <;>
      rw [hx] at hlen <;>
      simp only [optPart, String.length_append, hnl, hz] at hlen <;>
      omega
  · intro e hn hm hst
    simp [createVMExec, hn, hm, hst]

/-- Witness for C5 at concrete failures: a number failure is rethrown by
start/stop and by create (no diagnostic fields); a fully-populated error and
an only-stderr error each yield their concatenation of present fields on
create. -/
theorem c5_amended_witness :
    startMachine (.error (.vnum 7)) = .error (.vnum 7) ∧
    stopMachine (.error (.vnum 7)) = .error (.vnum 7) ∧
    createVMExec (.error (mkRunErrorOpt (some ("E1")) (some ("boom")) (some ("oops")))) =
      .error (.vstr (optPart (some ("E1")) ++ optPart (some ("boom"))
        ++ optPart (some ("oops")))) ∧
    createVMExec (.error (mkRunErrorOpt none none (some ("oops")))) =
      .error (.vstr (optPart none ++ optPart none ++ optPart (some ("oops")))) ∧
    createVMExec (.error (.vnum 7)) = .error (.vnum 7) :=
  ⟨c5_amended.1 _, c5_amended.2.1 _,
   c5_amended.2.2.1 _ _ _ (fun x hx => by cases hx; decide)
     (fun x hx => by cases hx; decide) (fun x hx => by cases hx; decide)
     (Or.inl (fun h => Option.noConfusion h)),
   c5_amended.2.2.1 none none (some ("oops"))
     (fun x hx => by cases hx) (fun x hx => by cases hx)
     (fun x hx => by cases hx; decide)
     (Or.inr (Or.inr (fun h => Option.noConfusion h))),
   c5_amended.2.2.2 _ rfl rfl rfl⟩

/-! ### Claim C6 -/

/-- Claim C6 counterexample: a runner failure throwing a plain object with
no message field makes the inventory read return an EMPTY softError string,
contradicting the claimed non-empty softError on any runner failure. -/
theorem c6_counterexample :
    getJSONMachineList (.error (.vobj [])) = { list := [], error := "" } := rfl

/-- Claim C6 (amended): the inventory read never raises (it is a total
function of the runner outcome); on any runner failure it returns an empty
record sequence together with softError = getErrorMessage of the cause —
the stringified message field when the cause carries one, the cause itself
when it is a string — which can be empty when the cause has neither. -/
theorem c6_amended :
    (∀ e, getJSONMachineList (.error e) = { list := [], error := getErrorMessage e }) ∧
    (∀ fields s, mapGet fields ("message") = some (JSValue.vstr s) →
      getErrorMessage (.vobj fields) = s) ∧
    (∀ s, getErrorMessage (.vstr s) = s) := by
  refine ⟨fun e => rfl, ?_, ?_⟩
  · intro fields s h
    unfold getErrorMessage
    rw [if_pos (by simp [jsTruthy, jsIsObject, jsHasProp, h])]
    simp [jsGetProp, h, jsToString]
  · intro s
    unfold getErrorMessage
    simp [jsTruthy, jsIsObject, jsHasProp]

/-- Witness for C6 at concrete causes: an Error-like object yields its
message as the softError; a string cause is returned as-is. -/
theorem c6_amended_witness :
    getJSONMachineList (.error (.vobj [("message", JSValue.vstr ("cannot run"))])) =
      { list := [], error := getErrorMessage (.vobj [("message", JSValue.vstr ("cannot run"))]) } ∧
    getErrorMessage (.vobj [("message", JSValue.vstr ("cannot run"))]) = "cannot run" ∧
    getErrorMessage (.vstr ("exit 125")) = "exit 125" :=
  ⟨c6_amended.1 _,
   c6_amended.2.1 _ _ (by simp [mapGet]),
   c6_amended.2.2 _⟩

/-! ### Claim C7 -/

theorem paramsGet_cons_ne (k : String) (v : JSValue) (params : List (String × JSValue))
    (key : String) (h : ¬k = key) :
    paramsGet ((k, v) :: params) key = paramsGet params key := by
  simp [paramsGet, mapGet, h]

/-- Create parameters carrying an image path and a 3 MiB memory request. -/
def createParamsMem : List (String × JSValue) :=
  [("macadam.factory.machine.image-path", .vstr "/tmp/img.qcow2"),
   ("macadam.factory.machine.memory", .vnum (3 * 1024 * 1024))]

/-- Claim C7 counterexample: with a 3 MiB memory value present in the
configuration (and a valid image path), the constructed argument list
contains no memory flag and no rounded value at all — the memory plumbing of
createVM is commented out. -/
theorem c7_counterexample :
    createVMParameters createParamsMem =
      .ok (["init", "/tmp/img.qcow2", "--ssh-identity-path", "/tmp/id_ed25519",
            "--username", "core"]) ∧
    ("--memory" ∉ ["init", "/tmp/img.qcow2", "--ssh-identity-path", "/tmp/id_ed25519",
                   "--username", "core"]) ∧
    ("4" ∉ ["init", "/tmp/img.qcow2", "--ssh-identity-path", "/tmp/id_ed25519",
            "--username", "core"]) ∧
    ("3145728" ∉ ["init", "/tmp/img.qcow2", "--ssh-identity-path", "/tmp/id_ed25519",
                  "--username", "core"]) := by
  refine ⟨rfl, by decide, by decide, by decide⟩

/-- Claim C7 (amended): the active create path appends no flag for the
memory, cpus or diskSize configuration keys — prepending any of them to the
configuration leaves the outcome unchanged, because the flag plumbing is
commented out pending backend support for the init command.  When the
image-path key is absent, create does not build an argument list at all: it
throws the TypeError raised by path.dirname(undefined) at line 474.  When
the image-path key holds a non-empty string, the completed argument list is
the fixed base with the single positional image path and the unconditional
ssh-identity-path/username arguments, still with no memory flag.  The
disabled rounding rule (modelled from the commented source) converts a byte
count to MiB rounded up to the nearest even MiB, taking a 3 MiB input to 4. -/
theorem c7_amended :
    (∀ params v, createVMParameters (("macadam.factory.machine.memory", v) :: params) =
      createVMParameters params) ∧
    (∀ params v, createVMParameters (("macadam.factory.machine.cpus", v) :: params) =
      createVMParameters params) ∧
    (∀ params v, createVMParameters (("macadam.factory.machine.diskSize", v) :: params) =
      createVMParameters params) ∧
    (∀ params, paramsGet params ("macadam.factory.machine.image-path") = JSValue.vundefined →
      createVMParameters params = .error (dirnameTypeError JSValue.vundefined)) ∧
    (∀ p : String, p ≠ "" → ∀ params,
      paramsGet params ("macadam.factory.machine.image-path") = JSValue.vstr p →
      createVMParameters params = .ok (["init", p, "--ssh-identity-path",
        pathJoin (pathDirname p) ("id_ed25519"), "--username", "core"])) ∧
    roundedMemoryMiB ((3 : ℚ) * 1024 * 1024) = 4 := by
  refine ⟨?_, ?_, ?_, ?_, ?_, ?_⟩
  · intro params v
    unfold createVMParameters
    rw [paramsGet_cons_ne _ _ _ _ (by decide)]
  · intro params v
    unfold createVMParameters
    rw [paramsGet_cons_ne _ _ _ _ (by decide)]
  · intro params v
    unfold createVMParameters
    rw [paramsGet_cons_ne _ _ _ _ (by decide)]
  · intro params h
    unfold createVMParameters
    dsimp only
    rw [h]
  · intro p hp params h
    unfold createVMParameters
    dsimp only
    rw [h]
    have ht : jsTruthy (JSValue.vstr p) = true := by simp [jsTruthy, hp]
    rw [if_pos ht]
    rfl
  · norm_num [roundedMemoryMiB]

/-- Witness for C7: with no configuration at all the create path throws the
dirname TypeError; with the concrete image path (and a memory key present)
it completes the fixed argument list. -/
theorem c7_amended_witness :
    createVMParameters [] = .error (dirnameTypeError JSValue.vundefined) ∧
    createVMParameters createParamsMem =
      .ok (["init", "/tmp/img.qcow2", "--ssh-identity-path",
            pathJoin (pathDirname ("/tmp/img.qcow2")) ("id_ed25519"),
            "--username", "core"]) :=
  ⟨c7_amended.2.2.2.1 [] rfl,
   c7_amended.2.2.2.2.1 ("/tmp/img.qcow2") (by decide) createParamsMem rfl⟩

/-! ### Claim C2 -/

/-- Claim C2 counterexample: on the first observation of identity a (no
prior statuses entry) the pass DOES fire a notification to the listener,
contradicting the claim that a first observation commits the status without
firing. -/
theorem c2_counterexample :
    mapGet emptyState.macadamMachinesStatuses ("a") = none ∧
    (processMachine ["h1"] emptyState mRunning).events =
      [Event.notify ("h1") ("a") Status.started,
       Event.commitStatus ("a") Status.started] := by
  exact ⟨rfl, by decide⟩

/-- Claim C2 (amended): for every machine record processed in a pass, every
listener in the Listener Set is invoked with (identity, newStatus) iff the
stored status entry for that identity is absent or differs from the newly
derived status — so the first observation of a new identity DOES fire a
notification — and when the notification fires it does so before the new
status value is committed to the statuses map (the notify events precede the
commit event); in all cases the derived status ends up committed. -/
theorem c2_amended (ls : List String) (s : PassState) (m : MachineJSON) :
    (mapGet s.macadamMachinesStatuses m.Image = some (deriveStatus m.Running m.Starting) →
      (processMachine ls s m).events = s.events) ∧
    (mapGet s.macadamMachinesStatuses m.Image ≠ some (deriveStatus m.Running m.Starting) →
      (processMachine ls s m).events = s.events
        ++ ls.map (fun l => Event.notify l m.Image (deriveStatus m.Running m.Starting))
        ++ [Event.commitStatus m.Image (deriveStatus m.Running m.Starting)]) ∧
    mapGet (processMachine ls s m).macadamMachinesStatuses m.Image =
      some (deriveStatus m.Running m.Starting) := by
  refine ⟨?_, ?_, ?_⟩
  · intro h
    simp only [processMachine]
    split
    · rename_i hc
      exact absurd h hc
    · split
      · rfl
      · rename_i hh
        exact absurd (by simp [mapHas, h]) hh
  · intro h
    simp only [processMachine]
    split
    · split
      · rfl
      · rename_i hh
        exact absurd (by simp [mapHas, mapGet_set]) hh
    · rename_i hc
      rw [not_ne_iff] at hc
      exact absurd hc h
  · rw [processMachine_statuses_get, if_pos rfl]

/-- A state already tracking machine a as started, with an empty event log. -/
def stateStartedA : PassState :=
  { macadamMachinesInfo := [("a", machineInfoOf mRunning)],
    macadamMachinesStatuses := [("a", Status.started)],
    currentConnections := [("a", ())], providerStatus := Status.ready, events := [] }

/-- Witness for C2: a changed status fires the notifications before the
commit; an unchanged status fires nothing. -/
theorem c2_amended_witness :
    (processMachine ["h1"] emptyState mRunning).events =
      emptyState.events
        ++ ["h1"].map (fun l => Event.notify l mRunning.Image
              (deriveStatus mRunning.Running mRunning.Starting))
        ++ [Event.commitStatus mRunning.Image
              (deriveStatus mRunning.Running mRunning.Starting)] ∧
    (processMachine ["h1"] stateStartedA mRunning).events = stateStartedA.events :=
  ⟨(c2_amended ["h1"] emptyState mRunning).2.1 (by decide),
   (c2_amended ["h1"] stateStartedA mRunning).1 (by decide)⟩

/-! ### Claim C3 -/

/-- A state tracking machine a with a registered connection, as left by a
healthy earlier pass. -/
def trackedState : PassState :=
  { macadamMachinesInfo := [("a", machineInfoOf mRunning)],
    macadamMachinesStatuses := [("a", Status.started)],
    currentConnections := [("a", ())],
    providerStatus := Status.ready, events := [] }

/-- Claim C3 (code bug): on a soft poll error (the inventory read fails and
returns an empty list plus the soft error string) the pass does NOT leave
the existing entries unchanged: because the `if (machineListOutput.error)`
branch is empty (`// TODO handle the error`), the empty list is processed as
an empty snapshot, so the tracked machine's status entry is deleted and its
connection is disposed. -/
theorem c3_code_eval :
    getJSONMachineList (.error (.vstr ("boom"))) = { list := [], error := "boom" } ∧
    (updateMachines ["h1"] true trackedState (.error (.vstr ("boom")))).macadamMachinesStatuses
      = [] ∧
    (updateMachines ["h1"] true trackedState (.error (.vstr ("boom")))).currentConnections
      = [] ∧
    (updateMachines ["h1"] true trackedState (.error (.vstr ("boom")))).events
      = [Event.disposeConnection ("a")] := by
  refine ⟨rfl, by decide, by decide, by decide⟩

/-! ### Claims C1, C4, C8: concrete counterexamples -/

/-- Claim C1 counterexample: after the pass that removes machine a from the
snapshot, the statuses map is empty but the machines (info) map still holds
a — `statuses.keys() == machines.keys()` fails because removal never deletes
from `macadamMachinesInfo`. -/
theorem c1_counterexample :
    mapKeys passTwo.macadamMachinesStatuses = [] ∧
    mapKeys passTwo.macadamMachinesInfo = ["a"] ∧
    mapKeys passTwo.macadamMachinesStatuses ≠ mapKeys passTwo.macadamMachinesInfo := by
  refine ⟨by decide, by decide, by decide⟩

/-- Claim C4 counterexample: the identity a removed from the snapshot is
deleted from statuses and connections, but its entry in the machines (info)
map survives the pass — it is not deleted from all three maps. -/
theorem c4_counterexample :
    mapHas passOne.macadamMachinesStatuses ("a") = true ∧
    mapHas passTwo.macadamMachinesStatuses ("a") = false ∧
    mapHas passTwo.currentConnections ("a") = false ∧
    mapHas passTwo.macadamMachinesInfo ("a") = true := by
  refine ⟨by decide, by decide, by decide, by decide⟩

/-- Claim C8 counterexample: on the excluded platform (Linux) a pass that
registers a new connection DOES update the aggregate provider status — to
ready, via registerProviderFor — so "the aggregate status is never updated
by the pass" fails on Linux. -/
theorem c8_counterexample :
    emptyState.providerStatus = Status.unknown ∧
    passOne.providerStatus = Status.ready := by
  refine ⟨rfl, by decide⟩

/-! ### Claim C1: amended invariant -/

/-- Claim C1 (amended): after every reconciliation pass, statuses.keys ⊆
machines.keys and connections.keys ⊆ machines.keys (under the pass
invariants, true of every reachable state, that connections.keys ⊆
machines.keys held before the pass and that the info map is keyed by the
image field); equality of statuses.keys and machines.keys does NOT hold in
general, because an identity removed from the snapshot is deleted from
statuses and connections but its machines (info) entry survives. -/
theorem c1_amended (ls : List String) (isLinux : Bool) (s : PassState)
    (run : Except JSValue (List MachineJSON × String))
    (hconn : ∀ q, mapHas s.currentConnections q = true →
      mapHas s.macadamMachinesInfo q = true)
    (hwf : wfInfo s.macadamMachinesInfo) :
    (∀ q, mapHas (updateMachines ls isLinux s run).macadamMachinesStatuses q = true →
      mapHas (updateMachines ls isLinux s run).macadamMachinesInfo q = true) ∧
    (∀ q, mapHas (updateMachines ls isLinux s run).currentConnections q = true →
      mapHas (updateMachines ls isLinux s run).macadamMachinesInfo q = true) := by
  rw [updateMachines_decomp]
  set M := (getJSONMachineList run).list with hM
  set s1 := M.foldl (processMachine ls) s with hs1
  set R := passRemoveList M s1.macadamMachinesStatuses with hR
  set s2 := removeStatuses R s1 with hs2
  set C := passCreateList s2 with hC
  set s3 := C.foldl createStep s2 with hs3
  set s4 := R.foldl disposeStep s3 with hs4
  have hinfo4 : (applyAggregate isLinux M s4).macadamMachinesInfo =
      s1.macadamMachinesInfo := by
    rw [applyAggregate_info, hs4, foldl_ds_info, hs3, foldl_cs_info, hs2]
    rfl
  have hstat4 : (applyAggregate isLinux M s4).macadamMachinesStatuses =
      R.foldl mapDelete s1.macadamMachinesStatuses := by
    rw [applyAggregate_statuses, hs4, foldl_ds_statuses, hs3, foldl_cs_statuses, hs2]
    rfl
  have hconn4 : (applyAggregate isLinux M s4).currentConnections =
      s4.currentConnections := applyAggregate_connections _ _ _
  have hs2conn : s2.currentConnections = s.currentConnections := by
    rw [hs2]
    show s1.currentConnections = s.currentConnections
    rw [hs1, foldl_pm_connections]
  have hs1info_has : ∀ q, mapHas s1.macadamMachinesInfo q = true ↔
      (mapHas s.macadamMachinesInfo q = true ∨ ∃ m ∈ M, m.Image = q) := by
    intro q
    rw [hs1]
    exact foldl_pm_info_has ls M s q
  have hwf1 : wfInfo s1.macadamMachinesInfo := by
    rw [hs1]
    exact foldl_pm_wfInfo ls M s hwf
  constructor
  · intro q hq
    rw [hstat4] at hq
    obtain ⟨v, hv⟩ := (mapHas_true_iff _ _).mp hq
    rw [mapGet_foldl_delete] at hv
    by_cases hmem : q ∈ R
    · rw [if_pos hmem] at hv
      cases hv
    · rw [if_neg hmem] at hv
      have hqkeys : q ∈ mapKeys s1.macadamMachinesStatuses :=
        (mem_keys_iff _ _).mpr (by simp [mapHas, hv])
      have hany : M.any (fun m => m.Image == q) = true := by
        by_contra hno
        apply hmem
        rw [hR]
        unfold passRemoveList
        rw [List.mem_filter]
        refine ⟨hqkeys, ?_⟩
        have hfalse : M.any (fun m => m.Image == q) = false := Bool.eq_false_iff.mpr hno
        simp [hfalse]
      obtain ⟨m, hmM, hmq⟩ := List.any_eq_true.mp hany
      have hmq' : m.Image = q := by simpa using hmq
      rw [hinfo4]
      exact (hs1info_has q).mpr (Or.inr ⟨m, hmM, hmq'⟩)
  · intro q hq
    rw [hconn4, hs4] at hq
    obtain ⟨v, hv⟩ := (mapHas_true_iff _ _).mp hq
    rw [foldl_ds_connections_get] at hv
    by_cases hmem : q ∈ R
    · rw [if_pos hmem] at hv
      cases hv
    · rw [if_neg hmem] at hv
      have hq3 : mapHas s3.currentConnections q = true := by simp [mapHas, hv]
      rw [hs3] at hq3
      rcases foldl_cs_connections_has C s2 q hq3 with h2 | ⟨n, hnC, mi, hmi, him⟩
      · rw [hs2conn] at h2
        have hsi := hconn q h2
        rw [hinfo4]
        exact (hs1info_has q).mpr (Or.inl hsi)
      · have hmi1 : mapGet s1.macadamMachinesInfo n = some mi := by
          rw [hs2] at hmi
          exact hmi
        have hqn : q = n := him.symm.trans (hwf1 n mi hmi1)
        rw [hinfo4, mapHas_true_iff]
        exact ⟨mi, by rw [hqn]; exact hmi1⟩

/-- Witness for C1: starting from the empty registry (whose invariants hold
trivially), after a pass observing machine a the statuses key a is also an
info key. -/
theorem c1_amended_witness :
    mapHas passOne.macadamMachinesInfo ("a") = true :=
  (c1_amended ["h1"] true emptyState (.ok ([mRunning], ""))
      (fun q h => by simp [emptyState, mapHas, mapGet] at h)
      (fun q mi h => by simp [emptyState, mapGet] at h)).1 ("a") (by decide)

/-! ### Claim C4: amended removal behaviour -/

/-- Claim C4 (amended): for every identity tracked before the pass but
absent from the current snapshot, the pass deletes the identity from the
statuses and connections maps and disposes its connection exactly once when
one is registered (zero times when none is), but it does NOT delete the
identity from the machines (info) map — that entry survives the pass.
Hypotheses (true of every state the extension builds from startup): the
statuses keys are duplicate-free and the info map is keyed by image. -/
theorem c4_amended (ls : List String) (isLinux : Bool) (s : PassState)
    (run : Except JSValue (List MachineJSON × String)) (k : String)
    (hnd : (mapKeys s.macadamMachinesStatuses).Nodup)
    (hwf : wfInfo s.macadamMachinesInfo)
    (htracked : mapHas s.macadamMachinesStatuses k = true)
    (hgone : ∀ m ∈ (getJSONMachineList run).list, m.Image ≠ k) :
    mapHas (updateMachines ls isLinux s run).macadamMachinesStatuses k = false ∧
    mapHas (updateMachines ls isLinux s run).currentConnections k = false ∧
    (mapHas s.currentConnections k = true →
      countDispose (updateMachines ls isLinux s run).events k =
        countDispose s.events k + 1) ∧
    (mapHas s.currentConnections k = false →
      countDispose (updateMachines ls isLinux s run).events k = countDispose s.events k) ∧
    (mapHas s.macadamMachinesInfo k = true →
      mapHas (updateMachines ls isLinux s run).macadamMachinesInfo k = true) := by
  rw [updateMachines_decomp]
  set M := (getJSONMachineList run).list with hM
  set s1 := M.foldl (processMachine ls) s with hs1
  set R := passRemoveList M s1.macadamMachinesStatuses with hR
  set s2 := removeStatuses R s1 with hs2
  set C := passCreateList s2 with hC
  set s3 := C.foldl createStep s2 with hs3
  set s4 := R.foldl disposeStep s3 with hs4
  have hk1 : mapGet s1.macadamMachinesStatuses k = mapGet s.macadamMachinesStatuses k := by
    rw [hs1]
    exact foldl_pm_statuses_get_of_not_mem ls M s k hgone
  have hk1has : mapHas s1.macadamMachinesStatuses k = true := by
    show (mapGet s1.macadamMachinesStatuses k).isSome = true
    rw [hk1]
    exact htracked
  have hkR : k ∈ R := by
    rw [hR]
    unfold passRemoveList
    rw [List.mem_filter]
    refine ⟨(mem_keys_iff _ _).mpr hk1has, ?_⟩
    have hfalse : M.any (fun m => m.Image == k) = false := by
      rw [Bool.eq_false_iff]
      intro htrue
      obtain ⟨m, hmM, hmq⟩ := List.any_eq_true.mp htrue
      exact hgone m hmM (by simpa using hmq)
    simp [hfalse]
  have hstat4 : (applyAggregate isLinux M s4).macadamMachinesStatuses =
      R.foldl mapDelete s1.macadamMachinesStatuses := by
    rw [applyAggregate_statuses, hs4, foldl_ds_statuses, hs3, foldl_cs_statuses, hs2]
    rfl
  have hstat2k : mapHas s2.macadamMachinesStatuses k = false := by
    show (mapGet s2.macadamMachinesStatuses k).isSome = false
    rw [hs2]
    show (mapGet (R.foldl mapDelete s1.macadamMachinesStatuses) k).isSome = false
    rw [mapGet_foldl_delete, if_pos hkR]
    rfl
  have hs2info : s2.macadamMachinesInfo = s1.macadamMachinesInfo := by
    rw [hs2]
    rfl
  have hwf1 : wfInfo s1.macadamMachinesInfo := by
    rw [hs1]
    exact foldl_pm_wfInfo ls M s hwf
  have hno : ∀ n ∈ C, ∀ mi, mapGet s2.macadamMachinesInfo n = some mi → mi.image ≠ k := by
    intro n hnC mi hmi him
    have hmi1 : mapGet s1.macadamMachinesInfo n = some mi := by
      rw [hs2info] at hmi
      exact hmi
    have hnk : n = k := (hwf1 n mi hmi1).symm.trans him
    have hnkeys : n ∈ mapKeys s2.macadamMachinesStatuses := by
      rw [hC] at hnC
      unfold passCreateList at hnC
      exact (List.mem_filter.mp hnC).1
    have hhas : mapHas s2.macadamMachinesStatuses n = true := (mem_keys_iff _ _).mp hnkeys
    rw [hnk] at hhas
    exact absurd hstat2k (by simp [hhas])
  have hconn3k : mapGet s3.currentConnections k = mapGet s.currentConnections k := by
    rw [hs3, foldl_cs_connections_get C s2 k hno, hs2]
    show mapGet s1.currentConnections k = mapGet s.currentConnections k
    rw [hs1, foldl_pm_connections]
  have hcount_pre : countDispose s3.events k = countDispose s.events k := by
    rw [hs3, foldl_cs_countDispose, hs2]
    show countDispose s1.events k = countDispose s.events k
    rw [hs1, foldl_pm_countDispose]
  have hRnodup : R.Nodup := by
    rw [hR]
    unfold passRemoveList
    apply List.Nodup.filter
    rw [hs1]
    exact foldl_pm_statuses_nodup ls M s hnd
  have hcount4 : countDispose (applyAggregate isLinux M s4).events k =
      countDispose s.events k +
        (if mapHas s.currentConnections k = true then 1 else 0) := by
    rw [applyAggregate_countDispose, hs4,
      foldl_ds_countDispose_mem R s3 k hRnodup hkR, hcount_pre]
    congr 1
    show (if (mapGet s3.currentConnections k).isSome = true then 1 else 0) = _
    rw [hconn3k]
    rfl
  refine ⟨?_, ?_, ?_, ?_, ?_⟩
  · rw [hstat4]
    show (mapGet (R.foldl mapDelete s1.macadamMachinesStatuses) k).isSome = false
    rw [mapGet_foldl_delete, if_pos hkR]
    rfl
  · rw [applyAggregate_connections, hs4]
    show (mapGet (R.foldl disposeStep s3).currentConnections k).isSome = false
    rw [foldl_ds_connections_get, if_pos hkR]
    rfl
  · intro hc
    rw [hcount4, hc]
    simp
  · intro hc
    rw [hcount4, hc]
    simp
  · intro hi
    have hinfo4 : (applyAggregate isLinux M s4).macadamMachinesInfo =
        s1.macadamMachinesInfo := by
      rw [applyAggregate_info, hs4, foldl_ds_info, hs3, foldl_cs_info, hs2]
      rfl
    rw [hinfo4, hs1]
    exact (foldl_pm_info_has ls M s k).mpr (Or.inl hi)

/-- Witness for C4: machine a, tracked with a connection after the first
pass, disappears in the second pass: its status entry is gone and its
connection was disposed exactly once. -/
theorem c4_amended_witness :
    mapHas passTwo.macadamMachinesStatuses ("a") = false ∧
    countDispose passTwo.events ("a") = countDispose passOne.events ("a") + 1 ∧
    mapHas passTwo.macadamMachinesInfo ("a") = true := by
  have h := c4_amended ["h1"] true passOne (.ok ([], "")) ("a")
    (by decide)
    (by
      intro q mi hq
      rw [show passOne.macadamMachinesInfo = [("a", machineInfoOf mRunning)] from rfl]
        at hq
      simp only [mapGet] at hq
      split at hq
      · rename_i heq
        cases hq
        rw [← heq]
        rfl
      · cases hq)
    (by decide)
    (fun m hm => absurd hm (List.not_mem_nil m))
  exact ⟨h.1, h.2.2.1 (by decide), h.2.2.2.2 (by decide)⟩

/-! ### Claim C8: amended aggregate behaviour -/

/-- Claim C8 (amended): on platforms where aggregate computation is not
excluded (non-Linux), the aggregate provider status at the end of a pass is
ready if some machine is running and not starting, else starting if some
machine is starting, else configured if at least one machine exists, else
installed when no machines exist — except that an existing configuring
status is preserved in the no-machines case.  On the excluded platform
(Linux) the end-of-pass aggregate recomputation is skipped, but the pass is
not free of provider-status updates: a successful connection registration
during the pass sets the provider status to ready, so on Linux the status is
either unchanged or ready. -/
theorem c8_amended (ls : List String) (s : PassState)
    (run : Except JSValue (List MachineJSON × String)) :
    ((∃ m ∈ (getJSONMachineList run).list, m.Running = true ∧ m.Starting = false) →
      (updateMachines ls false s run).providerStatus = Status.ready) ∧
    ((¬ ∃ m ∈ (getJSONMachineList run).list, m.Running = true ∧ m.Starting = false) →
      (∃ m ∈ (getJSONMachineList run).list, m.Starting = true) →
      (updateMachines ls false s run).providerStatus = Status.starting) ∧
    ((¬ ∃ m ∈ (getJSONMachineList run).list, m.Running = true ∧ m.Starting = false) →
      (¬ ∃ m ∈ (getJSONMachineList run).list, m.Starting = true) →
      (getJSONMachineList run).list ≠ [] →
      (updateMachines ls false s run).providerStatus = Status.configured) ∧
    ((getJSONMachineList run).list = [] → s.providerStatus ≠ Status.configuring →
      (updateMachines ls false s run).providerStatus = Status.installed) ∧
    ((getJSONMachineList run).list = [] → s.providerStatus = Status.configuring →
      (updateMachines ls false s run).providerStatus = Status.configuring) ∧
    ((updateMachines ls true s run).providerStatus = s.providerStatus ∨
      (updateMachines ls true s run).providerStatus = Status.ready) := by
  simp only [updateMachines_decomp]
  set M := (getJSONMachineList run).list with hM
  set s1 := M.foldl (processMachine ls) s with hs1
  set R := passRemoveList M s1.macadamMachinesStatuses with hR
  set s2 := removeStatuses R s1 with hs2
  set C := passCreateList s2 with hC
  set s3 := C.foldl createStep s2 with hs3
  set s4 := R.foldl disposeStep s3 with hs4
  have hps4 : s4.providerStatus = s3.providerStatus := by
    rw [hs4, foldl_ds_providerStatus]
  have hempty_ps : M = [] → s4.providerStatus = s.providerStatus := by
    intro hMnil
    have h1 : s1 = s := by
      rw [hs1, hMnil]
      rfl
    have hR' : R = mapKeys s.macadamMachinesStatuses := by
      rw [hR, hMnil, h1]
      unfold passRemoveList
      apply List.filter_eq_self.mpr
      intro a ha
      rfl
    have hs2stat : s2.macadamMachinesStatuses = [] := by
      rw [hs2, hR', h1]
      show (mapKeys s.macadamMachinesStatuses).foldl mapDelete s.macadamMachinesStatuses = []
      exact foldl_mapDelete_all _ _ (fun p hp => List.mem_map_of_mem Prod.fst hp)
    have hC' : C = [] := by
      rw [hC]
      unfold passCreateList
      rw [hs2stat]
      rfl
    have h3 : s3.providerStatus = s2.providerStatus := by
      rw [hs3, hC']
      rfl
    have h2ps : s2.providerStatus = s.providerStatus := by
      rw [hs2, h1]
      rfl
    rw [hps4, h3, h2ps]
  refine ⟨?_, ?_, ?_, ?_, ?_, ?_⟩
  · rintro ⟨m, hmM, hr, hst⟩
    rw [applyAggregate_ps_nonLinux]
    rw [if_neg (fun hlen => List.ne_nil_of_mem hmM (List.length_eq_zero.mp hlen))]
    rw [if_pos (List.any_eq_true.mpr ⟨m, hmM, by simp [hr, hst]⟩)]
  · rintro hnor ⟨m, hmM, hsm⟩
    rw [applyAggregate_ps_nonLinux]
    rw [if_neg (fun hlen => List.ne_nil_of_mem hmM (List.length_eq_zero.mp hlen))]
    rw [if_neg ?_, if_pos (List.any_eq_true.mpr ⟨m, hmM, hsm⟩)]
    intro hany
    obtain ⟨m', hm', hp⟩ := List.any_eq_true.mp hany
    rw [Bool.and_eq_true, Bool.not_eq_true'] at hp
    exact hnor ⟨m', hm', hp⟩
  · intro hnor hnos hne
    rw [applyAggregate_ps_nonLinux]
    rw [if_neg (fun hlen => hne (List.length_eq_zero.mp hlen))]
    rw [if_neg ?_, if_neg ?_]
    · intro hany
      obtain ⟨m', hm', hp⟩ := List.any_eq_true.mp hany
      exact hnos ⟨m', hm', hp⟩
    · intro hany
      obtain ⟨m', hm', hp⟩ := List.any_eq_true.mp hany
      rw [Bool.and_eq_true, Bool.not_eq_true'] at hp
      exact hnor ⟨m', hm', hp⟩
  · intro hMnil hcfg
    rw [applyAggregate_ps_nonLinux]
    rw [if_pos (by rw [hMnil]; rfl)]
    rw [hempty_ps hMnil, if_pos hcfg]
  · intro hMnil hcfg
    rw [applyAggregate_ps_nonLinux]
    rw [if_pos (by rw [hMnil]; rfl)]
    rw [hempty_ps hMnil, if_neg (not_not_intro hcfg)]
    exact hcfg
  · rw [applyAggregate_linux, hps4, hs3]
    rcases foldl_cs_providerStatus C s2 with h | h
    · left
      rw [h, hs2]
      show s1.providerStatus = s.providerStatus
      rw [hs1, foldl_pm_providerStatus]
    · right
      exact h

/-- Witness for C8: with one running machine the non-Linux pass ends ready;
with an empty snapshot and a non-configuring provider it ends installed. -/
theorem c8_amended_witness :
    (updateMachines [] false emptyState (.ok ([mRunning], ""))).providerStatus =
      Status.ready ∧
    (updateMachines [] false emptyState (.ok ([], ""))).providerStatus =
      Status.installed :=
  ⟨(c8_amended [] emptyState (.ok ([mRunning], ""))).1
      ⟨mRunning, List.mem_cons_self _ _, rfl, rfl⟩,
   (c8_amended [] emptyState (.ok ([], ""))).2.2.2.1 rfl (by decide)⟩
